import Mathlib

/-!
# simple_shell: `functions.c`

A shallow embedding of the five functions of `functions.c`
(`print_prompt`, `parser`, `search_cmd`, `create_process`,
`execute_with_path`) and the properties of them that the specification states.

Conventions of the embedding.

* A C string is the list of the characters that stand before its terminating
  NUL; a `char *` that may be `NULL` is an `Option` of such a list.
* A NULL-terminated `char **` is the list of the strings before the `NULL`.
* Allocation (`malloc`, `calloc`, `strdup`) succeeds; the branches of the source
  that handle a failed allocation are left out.
* The counter `int count` of `parser` is modelled twice: as the natural number
  of its increments (`slotCount`) and as the 32-bit value the variable holds
  (`slotCountInt`). The two agree as long as the former does not exceed
  `INT_MAX`, and the properties of `parser` for arbitrary separators are stated
  under that bound.
* System calls are fields of a `World` (the answers the operating system gives
  to the process that is being followed).
-/

namespace SimpleShell

/-- A C string: its characters up to, not including, the terminating NUL. -/
abbrev CStr := List Char

/-- What stops a run of the embedded code before it returns. -/
inductive Fault where
  /-- a write `tokens[i]` with `i` not below the number of allocated slots -/
  | outOfBounds
  /-- an access to a buffer that has been passed to `free` -/
  | useAfterFree
  /-- an access through a `NULL` pointer -/
  | nullDeref
  /-- the iteration budget of a loop of the model ran out -/
  | outOfFuel
  deriving DecidableEq, Repr

deriving instance DecidableEq for Except

/-! ## `parser` -/

/-- The inner loop of `parser`, lines 63-67:
`for (j = 0; separator[j]; j++) if (str[i] == separator[j] || str[i + 1] == '\0') count++;`
where `c` is `str[i]` and `last` says that `str[i + 1]` is the terminating NUL.
The counter is the natural number of the increments made. -/
def countInner (c : Char) (last : Bool) : CStr → Nat → Nat
  | [], count => count
  | s :: separator, count =>
    countInner c last separator (if c = s ∨ last = true then count + 1 else count)

/-- The outer loop of `parser`, lines 61-68: `for (i = 0; str[i]; i++)`. -/
def countOuter (separator : CStr) : CStr → Nat → Nat
  | [], count => count
  | c :: rest, count => countOuter separator rest (countInner c rest.isEmpty separator count)

/-- The number of increments of `count` in `parser` (lines 57-70): those of the
two loops, started at `0`, and the `count++` of line 69. The counter is an `int`
in the source: this number is the value it holds, and the number of `char *`
slots allocated at line 70, as long as it does not exceed `INT_MAX`. -/
def slotCount (str separator : CStr) : Nat :=
  countOuter separator str 0 + 1

/-- One call of `strtok` of the C library, on the text `s` at which the scan
starts (the argument on the first call, the saved position on the calls with
`NULL`): skip the leading delimiters; at the end of the text the result is `NULL`;
otherwise the token runs up to the next delimiter, that delimiter is overwritten
by NUL and the saved position is the character after it (the end of the text
when the token reaches it). The result is the token and the new saved position. -/
def strtok (s delim : CStr) : Option CStr × CStr :=
  match s.dropWhile (fun c => decide (c ∈ delim)) with
  | [] => (none, [])
  | c :: cs =>
    (some ((c :: cs).takeWhile (fun c => !decide (c ∈ delim))),
      ((c :: cs).dropWhile (fun c => !decide (c ∈ delim))).drop 1)

/-- The loop of `parser`, lines 78-89, with the write of the sentinel:
`token` is the result of the last `strtok`, `save` the saved position of `strtok`,
`i` the loop index and `tokens` the strings stored in `tokens[0 .. i-1]`;
`count` is the number of allocated slots, and a store at an index that is not
below it is a fault. -/
def parserLoop (separator : CStr) (count : Nat) :
    Nat → Option CStr → CStr → Nat → List CStr → Except Fault (List CStr)
  | _, none, _, i, tokens =>
    if i < count then .ok tokens else .error .outOfBounds
  | 0, some _, _, _, _ => .error .outOfFuel
  | fuel + 1, some token, save, i, tokens =>
    if i < count then
      parserLoop separator count fuel (strtok save separator).1 (strtok save separator).2
        (i + 1) (tokens ++ [token])
    else .error .outOfBounds

/-- The function `parser(str, separator)`, lines 54-92. The result `none` is the `NULL` of line 60;
`some tokens` is the array returned at line 91, without its `NULL` sentinel.
The slots are the increments counted by `slotCount`, which is what `int count`
holds when `slotCount str separator ≤ INT_MAX`. -/
def parser (str : Option CStr) (separator : CStr) : Except Fault (Option (List CStr)) :=
  match str with
  | none => .ok none
  | some str =>
    match parserLoop separator (slotCount str separator) (str.length + 1)
        (strtok str separator).1 (strtok str separator).2 0 [] with
    | .ok tokens => .ok (some tokens)
    | .error f => .error f

/-! ## `search_cmd` -/

/-- The answers of the operating system to the calls made by `search_cmd`,
`create_process` and `execute_with_path`, in the process that is followed.
The helper `_getenv` is declared in `main.h` and defined outside `functions.c`;
what it returns for `"PATH="` is a field here. -/
structure World where
  /-- The call `stat(path, &path_stat)`: the `st_mode` it stores, `none` when it fails. -/
  stat : CStr → Option Nat
  /-- Whether `access(path, F_OK) == 0`. -/
  access_F_OK : CStr → Bool
  /-- Whether `access(path, X_OK) == 0`. -/
  access_X_OK : CStr → Bool
  /-- The result of `_getenv("PATH=")`: the value of `PATH`, `none` (`NULL`) when it is unset. -/
  getenv_PATH : Option CStr
  /-- The value `fork()` returns in this process: `-1` on failure, `0` in the
  child, the child's pid in the parent. -/
  fork : Int
  /-- Whether `execve(path, argv, environ)` replaces the image (it then does not return). -/
  execve : CStr → List CStr → Bool
  /-- The call `waitpid(pid, &status, 0)`: the termination status it stores in
  `status`, `none` when it fails and leaves `status` as it was. -/
  waitpid : Int → Option Int

/-- The constant `S_IXUSR` of `<sys/stat.h>`, octal `0100`. -/
def S_IXUSR : Nat := 0o100

/-- The loop of `search_cmd`, lines 117-136: for each directory the path
`directory/cmd` is built (line 122) and returned when `access(path, F_OK) == 0`. -/
def searchLoop (w : World) (cmd : CStr) : List CStr → Option CStr
  | [] => none
  | dir :: directories =>
    if w.access_F_OK (dir ++ ['/'] ++ cmd) = true then some (dir ++ ['/'] ++ cmd)
    else searchLoop w cmd directories

/-- The function `search_cmd(cmd)`, lines 102-140. -/
def search_cmd (w : World) (cmd : Option CStr) : Except Fault (Option CStr) :=
  match parser w.getenv_PATH [':'] with
  | .error f => .error f
  | .ok directories =>
    match cmd, w.getenv_PATH, directories with
    | some cmd, some _, some directories =>
      if w.access_F_OK cmd = true then .ok (some cmd)
      else .ok (searchLoop w cmd directories)
    | _, _, _ => .ok none

/-! ## `create_process` and `execute_with_path` -/

/-- The calls of a run that are visible outside the process. Heap management
(`strdup`, `free`, `free_all`) is not recorded. -/
inductive Event where
  /-- a call `fprintf(stderr, ...)` with the text it writes -/
  | stderr (text : CStr)
  /-- a call `perror(msg)` -/
  | perror (msg : CStr)
  /-- a call of `fork()` -/
  | fork
  /-- a call `execve(path, argv, environ)` -/
  | execve (path : CStr) (argv : List CStr)
  /-- a call `waitpid(pid, &status, 0)` -/
  | waitpid (pid : Int)
  deriving DecidableEq, Repr

/-- How the followed process leaves the function. -/
inductive Exit where
  /-- the function returns this value to its caller -/
  | returned (value : Int)
  /-- the process image was replaced by `execve`: no later statement runs -/
  | replaced
  deriving DecidableEq, Repr

/-- A run of `create_process` or `execute_with_path`: the calls made, in order,
and the way the function is left. -/
structure Run where
  events : List Event
  exit : Exit
  deriving DecidableEq, Repr

/-- The function `execute_with_path(buff, full_path)`, lines 197-216. -/
def execute_with_path (w : World) (buff : List CStr) (full_path : CStr) : Run :=
  let status : Int := 0
  let pid := w.fork
  if pid = -1 then
    ⟨[.fork, .perror "Can't fork".toList], .returned (-1)⟩
  else if pid = 0 then
    if w.execve full_path buff = true then
      ⟨[.fork, .execve full_path buff], .replaced⟩
    else
      let _status := (w.waitpid pid).getD status
      ⟨[.fork, .execve full_path buff, .perror "Error in execve".toList, .waitpid pid],
        .returned 0⟩
  else
    let _status := (w.waitpid pid).getD status
    ⟨[.fork, .waitpid pid], .returned 0⟩

/-- Whether the test of line 157 holds:
`stat(buff[0], &path_stat) == 0 && (path_stat.st_mode & S_IXUSR)`. -/
def directlyExecutable (w : World) (path : CStr) : Bool :=
  match w.stat path with
  | some st_mode => st_mode &&& S_IXUSR != 0
  | none => false

/-- The function `create_process(shell, buff, count)`, lines 150-190, for a
vector `buff` whose first entry `buff[0]` is `cmd` (the vector is `cmd :: args`). -/
def create_process (w : World) (shell : CStr) (cmd : CStr) (args : List CStr) (count : Int) :
    Except Fault Run :=
  let status : Int := 0
  let buff := cmd :: args
  if directlyExecutable w cmd = true then
    let pid := w.fork
    if pid = -1 then
      .ok ⟨[.fork, .perror "Can't fork".toList], .returned (-1)⟩
    else if pid = 0 then
      if w.execve cmd buff = true then
        .ok ⟨[.fork, .execve cmd buff], .replaced⟩
      else
        let status := (w.waitpid pid).getD status
        .ok ⟨[.fork, .execve cmd buff, .perror "Error in execve".toList, .waitpid pid],
          .returned status⟩
    else
      let status := (w.waitpid pid).getD status
      .ok ⟨[.fork, .waitpid pid], .returned status⟩
  else
    match search_cmd w (some cmd) with
    | .error f => .error f
    | .ok (some full_path) =>
      if w.access_X_OK full_path = false then
        .ok ⟨[.stderr (shell ++ ": ".toList ++ full_path ++ ": Permission denied\n".toList)],
          .returned status⟩
      else
        -- line 184: `status = execute_with_path(buff, full_path)`, returned at line 189
        .ok (execute_with_path w buff full_path)
    | .ok none =>
      .ok ⟨[.stderr (shell ++ ": ".toList ++ cmd ++ ": ".toList ++ (Int.repr count).toList
          ++ ": not found\n".toList)], .returned status⟩

/-! ## `print_prompt` -/

/-- The answers of the operating system to the calls made by `print_prompt`. -/
structure Console where
  /-- The host name `gethostname` stores, `none` when it does not return `0`. -/
  gethostname : Option CStr
  /-- The result of `getcwd(NULL, 0)`. -/
  getcwd : Option CStr
  /-- The name `getlogin()` returns. -/
  getlogin : CStr
  /-- Whether `isatty(STDIN_FILENO) == 1`. -/
  isatty : Bool
  /-- The call `getline(&buffer, &buffsize, stdin)`: the line read, with its
  newline when it has one (the return value is its length); `none` when the
  call returns `-1` (end of input, or a read error). -/
  getline : Option CStr
  /-- Whether `getline` has allocated `buffer` when it returns `-1`. -/
  bufferAllocatedOnFailure : Bool

/-- The state of the pointer `buffer` of `print_prompt`. -/
inductive Buffer where
  /-- the pointer is `NULL` -/
  | null
  /-- allocated, holding this text -/
  | live (text : CStr)
  /-- passed to `free` -/
  | freed
  deriving DecidableEq, Repr

/-- The read `buffer[index]` of line 35. -/
def Buffer.read (buffer : Buffer) (index : Int) : Except Fault Char :=
  match buffer with
  | .null => .error .nullDeref
  | .freed => .error .useAfterFree
  | .live text =>
    if 0 ≤ index ∧ index < text.length then .ok (text.getD index.toNat '\x00')
    else if index = text.length then .ok '\x00'
    else .error .outOfBounds

/-- What `print_prompt` gives back: the text written to standard output and the
pointer returned. -/
structure PromptRun where
  stdout : CStr
  line : Buffer
  deriving DecidableEq, Repr

/-- The function `print_prompt()`, lines 9-44. Of the heap only the pointer
`buffer` is followed (`cwd` and `user` are not). -/
def print_prompt (c : Console) : Except Fault PromptRun :=
  match c.gethostname with
  | none => .ok ⟨[], .null⟩
  | some host =>
    match c.getcwd with
    | none => .ok ⟨[], .null⟩
    | some cwd =>
      let out : CStr :=
        if c.isatty = true then
          c.getlogin ++ ['@'] ++ host ++ [':'] ++ cwd ++ "$ ".toList
        else []
      -- line 26
      let prompt : Int := match c.getline with
        | some line => line.length
        | none => -1
      let buffer : Buffer := match c.getline with
        | some line => .live line
        | none => if c.bufferAllocatedOnFailure = true then .live [] else .null
      -- lines 28-34: the buffer is released and control goes on to line 35
      let buffer : Buffer :=
        if prompt = -1 then
          (match buffer with
            | .null => .null
            | _ => .freed)
        else buffer
      -- lines 35-39
      match buffer.read (prompt - 1) with
      | .error f => .error f
      | .ok ch =>
        let buffer : Buffer :=
          if ch = '\n' then
            (match buffer with
              | .live text => .live (text.take (prompt - 1).toNat)
              | b => b)
          else buffer
        -- line 43
        .ok ⟨out, buffer⟩

/-! ## Vocabulary of the specification -/

/-- The text `g₀ t₁ g₁ t₂ … tₙ gₙ` made of the gaps `g₀ … gₙ` and the tokens
`t₁ … tₙ`, alternating. -/
def weave : List CStr → List CStr → CStr
  | g :: gaps, t :: tokens => g ++ t ++ weave gaps tokens
  | g :: _, [] => g
  | [], _ => []

/-- The relation `Tokenizes separator s tokens`: the text `s` is cut into `tokens`
by runs of separator characters. Either `s` is a run of separators and there is no
token, or `s` is a run of separators (possibly empty), a non-empty token free of
separators, and a rest that is empty or begins with a separator and is cut into
the remaining tokens. -/
inductive Tokenizes (separator : CStr) : CStr → List CStr → Prop where
  | done (g : CStr) (hg : ∀ c ∈ g, c ∈ separator) : Tokenizes separator g []
  | token (g t rest : CStr) (tokens : List CStr)
      (hg : ∀ c ∈ g, c ∈ separator) (hne : t ≠ []) (ht : ∀ c ∈ t, c ∉ separator)
      (hrest : ∀ x ∈ rest.head?, x ∈ separator)
      (htail : Tokenizes separator rest tokens) :
      Tokenizes separator (g ++ t ++ rest) (t :: tokens)

/-! ## Concrete worlds -/

/-- A world in which `PATH` is `/a:/b`, the entries named by `present` exist and
are executable, `stat` fails on every path, and the process followed is the
parent of a child `4711` that terminates with the wait status `256` (exit
code `1`). -/
def pathWorld (present : List CStr) : World where
  stat := fun _ => none
  access_F_OK := fun path => decide (path ∈ present)
  access_X_OK := fun path => decide (path ∈ present)
  getenv_PATH := some "/a:/b".toList
  fork := 4711
  execve := fun _ _ => true
  waitpid := fun pid => if pid = 4711 then some 256 else none

/-- A world in which `PATH` is unset and every path names an existing entry that
`stat` reports as a regular file without execute permission (mode `0100644`). -/
def unsetPathWorld : World where
  stat := fun _ => some 0o100644
  access_F_OK := fun _ => true
  access_X_OK := fun _ => false
  getenv_PATH := none
  fork := 4711
  execve := fun _ _ => true
  waitpid := fun pid => if pid = 4711 then some 0 else none

/-- A world in which `PATH` is `/a:/b`, only `/b/cmd` exists, and it has no execute
permission. -/
def noExecWorld : World where
  stat := fun _ => none
  access_F_OK := fun path => decide (path = "/b/cmd".toList)
  access_X_OK := fun _ => false
  getenv_PATH := some "/a:/b".toList
  fork := 4711
  execve := fun _ _ => true
  waitpid := fun _ => none

/-- The world of a child process (`fork` has returned `0`) in which `execve`
fails: `PATH` is `/a:/b`, `/tmp` is a directory with mode `041777` (so `stat`
succeeds and `S_IXUSR` is set), `/b/cmd` exists with execute permission, and
the child has no child of its own to wait for. -/
def childWorld : World where
  stat := fun path => if path = "/tmp".toList then some 0o41777 else none
  access_F_OK := fun path => decide (path = "/b/cmd".toList)
  access_X_OK := fun path => decide (path = "/b/cmd".toList)
  getenv_PATH := some "/a:/b".toList
  fork := 0
  execve := fun _ _ => false
  waitpid := fun _ => none

/-- A world in which `/bin/false` is a regular file with mode `0100755`, run
directly; the process followed is the parent of a child `4711` that terminates
with the wait status `256`. -/
def directWorld : World where
  stat := fun path => if path = "/bin/false".toList then some 0o100755 else none
  access_F_OK := fun path => decide (path = "/bin/false".toList)
  access_X_OK := fun path => decide (path = "/bin/false".toList)
  getenv_PATH := some "/a:/b".toList
  fork := 4711
  execve := fun _ _ => true
  waitpid := fun pid => if pid = 4711 then some 256 else none

/-- A console at end of input: `getline` returns `-1`; `allocated` says whether it
has allocated the line buffer before. -/
def eofConsole (allocated : Bool) : Console where
  gethostname := some "host".toList
  getcwd := some "/home/user".toList
  getlogin := "user".toList
  isatty := false
  getline := none
  bufferAllocatedOnFailure := allocated

/-! ## Lemmas on `strtok` and the loop of `parser` -/

theorem strtok_none {s delim save : CStr} (h : strtok s delim = (none, save)) :
    ∀ c ∈ s, c ∈ delim := by
  unfold strtok at h
  split at h
  · next heq =>
    have := (List.dropWhile_eq_nil_iff).1 heq
    intro c hc
    simpa using this c hc
  · simp at h

theorem strtok_some {s delim t save : CStr} (h : strtok s delim = (some t, save)) :
    ∃ g rest, s = g ++ t ++ rest ∧ (∀ c ∈ g, c ∈ delim) ∧ t ≠ [] ∧ (∀ c ∈ t, c ∉ delim) ∧
      ((rest = [] ∧ save = []) ∨ ∃ x, x ∈ delim ∧ rest = x :: save) := by
  unfold strtok at h
  split at h
  · simp at h
  · next c cs heq =>
    simp only [Prod.mk.injEq, Option.some.injEq] at h
    obtain ⟨ht, hsave⟩ := h
    have hc : c ∉ delim := by
      have := List.head?_dropWhile_not (fun c => decide (c ∈ delim)) s
      rw [heq] at this
      simpa using this
    refine ⟨s.takeWhile (fun c => decide (c ∈ delim)),
      (c :: cs).dropWhile (fun c => !decide (c ∈ delim)), ?_, ?_, ?_, ?_, ?_⟩
    · rw [← ht, List.append_assoc, List.takeWhile_append_dropWhile, ← heq,
        List.takeWhile_append_dropWhile]
    · intro x hx
      simpa using List.mem_takeWhile_imp hx
    · rw [← ht]
      simp [List.takeWhile_cons, hc]
    · intro x hx
      rw [← ht] at hx
      simpa using List.mem_takeWhile_imp hx
    · cases hd : (c :: cs).dropWhile (fun c => !decide (c ∈ delim)) with
      | nil =>
        left
        rw [hd] at hsave
        exact ⟨rfl, by simpa using hsave.symm⟩
      | cons x xs =>
        right
        rw [hd] at hsave
        have := List.head?_dropWhile_not (fun c => !decide (c ∈ delim)) (c :: cs)
        rw [hd] at this
        exact ⟨x, by simpa using this, by simpa using hsave⟩

theorem Tokenizes.cons_sep {separator s : CStr} {tokens : List CStr} {x : Char}
    (hx : x ∈ separator) (h : Tokenizes separator s tokens) :
    Tokenizes separator (x :: s) tokens := by
  have hcons : ∀ g : CStr, (∀ c ∈ g, c ∈ separator) → ∀ c ∈ x :: g, c ∈ separator := by
    intro g hg c hc
    rcases List.mem_cons.1 hc with rfl | hc
    exacts [hx, hg c hc]
  cases h with
  | done _ hg => exact Tokenizes.done (x :: s) (hcons s hg)
  | token g t rest tokens hg hne ht hrest htail =>
    have := Tokenizes.token (x :: g) t rest tokens (hcons g hg) hne ht hrest htail
    simpa using this

/-- The loop of `parser` started on the text `s` (with enough fuel) stores a
tokenization of `s` after the tokens already stored when the slots suffice, and
stops on an out-of-bounds store when they do not. -/
theorem parserLoop_spec (separator : CStr) (count : Nat) :
    ∀ (fuel : Nat) (s : CStr), s.length < fuel →
      ∃ tokens, Tokenizes separator s tokens ∧ ∀ (i : Nat) (acc : List CStr),
        (i + tokens.length < count →
          parserLoop separator count fuel (strtok s separator).1 (strtok s separator).2 i acc
            = .ok (acc ++ tokens)) ∧
        (count ≤ i + tokens.length →
          parserLoop separator count fuel (strtok s separator).1 (strtok s separator).2 i acc
            = .error .outOfBounds) := by
  intro fuel
  induction fuel with
  | zero => intro s hs; omega
  | succ fuel ih =>
    intro s hs
    rcases hst : strtok s separator with ⟨_ | t, save⟩
    · refine ⟨[], Tokenizes.done s (strtok_none hst), fun i acc => ⟨?_, ?_⟩⟩
      · intro hi
        have hi' : i < count := by simpa using hi
        simp [parserLoop, hi']
      · intro hi
        have hi' : ¬ i < count := by simpa using hi
        simp [parserLoop, hi']
    · obtain ⟨g, rest, rfl, hg, hne, ht, hrest⟩ := strtok_some hst
      have hlen : save.length < fuel := by
        have : 0 < t.length := List.length_pos.2 hne
        simp only [List.length_append] at hs
        rcases hrest with ⟨_, rfl⟩ | ⟨x, _, rfl⟩
        · simp; omega
        · simp only [List.length_cons] at hs; omega
      obtain ⟨tokens, htok, hloop⟩ := ih save hlen
      have htok' : Tokenizes separator rest tokens := by
        rcases hrest with ⟨rfl, rfl⟩ | ⟨x, hx, rfl⟩
        · exact htok
        · exact htok.cons_sep hx
      have hhead : ∀ x ∈ rest.head?, x ∈ separator := by
        rcases hrest with ⟨rfl, _⟩ | ⟨x, hx, rfl⟩
        · simp
        · simpa using hx
      refine ⟨t :: tokens, Tokenizes.token g t rest tokens hg hne ht hhead htok', fun i acc => ⟨?_, ?_⟩⟩
      · intro hi
        simp only [List.length_cons] at hi
        have hi' : i < count := by omega
        simp only [parserLoop, hi', if_true]
        rw [(hloop (i + 1) (acc ++ [t])).1 (by omega)]
        simp
      · intro hi
        simp only [List.length_cons] at hi
        by_cases hi' : i < count
        · simp only [parserLoop, hi', if_true]
          exact (hloop (i + 1) (acc ++ [t])).2 (by omega)
        · simp [parserLoop, hi']

/-! ## Lemmas on the slot count of `parser` -/

theorem countInner_ge (c : Char) (last : Bool) (separator : CStr) (count : Nat) :
    count ≤ countInner c last separator count := by
  induction separator generalizing count with
  | nil => simp [countInner]
  | cons s separator ih =>
    simp only [countInner]
    split
    · exact Nat.le_of_succ_le (ih (count + 1))
    · exact ih count

theorem countInner_last (c : Char) (separator : CStr) (count : Nat) :
    countInner c true separator count = count + separator.length := by
  induction separator generalizing count with
  | nil => simp [countInner]
  | cons s separator ih =>
    simp only [countInner, or_true, if_true, List.length_cons]
    rw [ih]; omega

theorem countInner_mem {c : Char} {separator : CStr} (h : c ∈ separator) (last : Bool)
    (count : Nat) : count + 1 ≤ countInner c last separator count := by
  induction separator generalizing count with
  | nil => simp at h
  | cons s separator ih =>
    simp only [countInner]
    by_cases hcs : c = s
    · simp only [hcs, true_or, if_true]
      exact countInner_ge _ _ _ _
    · have hmem : c ∈ separator := by
        rcases List.mem_cons.1 h with h | h
        · exact absurd h hcs
        · exact h
      split
      · exact Nat.le_of_succ_le (ih hmem (count + 1))
      · exact ih hmem count

theorem countOuter_ge (separator s : CStr) (count : Nat) :
    count ≤ countOuter separator s count := by
  induction s generalizing count with
  | nil => simp [countOuter]
  | cons c rest ih =>
    simp only [countOuter]
    exact Nat.le_trans (countInner_ge _ _ _ _) (ih _)

theorem countOuter_mono (separator s : CStr) {m n : Nat} (h : m ≤ n) :
    countOuter separator s m + (n - m) = countOuter separator s n := by
  have inner : ∀ (c : Char) (last : Bool) (sep : CStr) (m n : Nat), m ≤ n →
      countInner c last sep m + (n - m) = countInner c last sep n := by
    intro c last sep
    induction sep with
    | nil => intro m n h; simp only [countInner]; omega
    | cons x sep ih =>
      intro m n h
      simp only [countInner]
      split
      · have := ih (m + 1) (n + 1) (by omega)
        rw [← this]; omega
      · exact ih m n h
  induction s generalizing m n with
  | nil => simp only [countOuter]; omega
  | cons c rest ih =>
    simp only [countOuter]
    have h1 := inner c rest.isEmpty separator m n h
    have h2 := countInner_ge c rest.isEmpty separator m
    have := ih (m := countInner c rest.isEmpty separator m)
      (n := countInner c rest.isEmpty separator n) (by omega)
    rw [← this]; omega

theorem countOuter_append_ge (separator a b : CStr) :
    countOuter separator b 0 ≤ countOuter separator (a ++ b) 0 := by
  induction a with
  | nil => simp
  | cons c a ih =>
    have h1 : countOuter separator (c :: (a ++ b)) 0
        = countOuter separator (a ++ b) (countInner c (a ++ b).isEmpty separator 0) := rfl
    have h2 := countOuter_mono separator (a ++ b)
      (Nat.zero_le (countInner c (a ++ b).isEmpty separator 0))
    rw [List.cons_append, h1]
    omega

theorem countOuter_pos {separator s : CStr} (hsep : separator ≠ []) (hs : s ≠ []) :
    1 ≤ countOuter separator s 0 := by
  induction s with
  | nil => exact absurd rfl hs
  | cons c rest ih =>
    cases rest with
    | nil =>
      simp only [countOuter, List.isEmpty_nil, countInner_last]
      have := List.length_pos.2 hsep
      omega
    | cons d rest =>
      have h1 := ih (List.cons_ne_nil d rest)
      have h2 := countOuter_append_ge separator [c] (d :: rest)
      simp only [List.singleton_append] at h2
      omega

theorem countOuter_cons_sep {separator : CStr} {x : Char} (hx : x ∈ separator)
    (rest : CStr) :
    countOuter separator rest 0 + 1 ≤ countOuter separator (x :: rest) 0 := by
  simp only [countOuter]
  have h1 := countInner_mem hx rest.isEmpty 0
  have h2 := countOuter_mono separator rest (Nat.zero_le (countInner x rest.isEmpty separator 0))
  omega

theorem Tokenizes.nil_eq {separator s : CStr} {tokens : List CStr}
    (h : Tokenizes separator s tokens) (hs : s = []) : tokens = [] := by
  cases h with
  | done _ _ => rfl
  | token g t rest tokens _ hne _ _ _ =>
    simp at hs
    exact absurd hs.2.1 hne

/-- The tokens of a text are fewer than the slots counted for it: their number is
at most the count of the two loops, and at most that count less one when the text
begins with a separator. -/
theorem Tokenizes.length_le {separator s : CStr} {tokens : List CStr}
    (hsep : separator ≠ []) (h : Tokenizes separator s tokens) :
    tokens.length ≤ countOuter separator s 0 ∧
      (∀ x ∈ s.head?, x ∈ separator → tokens.length + 1 ≤ countOuter separator s 0) := by
  induction h with
  | done g hg =>
    refine ⟨Nat.zero_le _, ?_⟩
    intro x hx _
    have hne : g ≠ [] := by rintro rfl; simp at hx
    simpa using countOuter_pos hsep hne
  | token g t rest tokens hg hne ht hrest htail ih =>
    have key : ∀ a : CStr, tokens.length + 1 ≤ countOuter separator (a ++ t ++ rest) 0 := by
      intro a
      cases rest with
      | nil =>
        have := htail.nil_eq rfl
        subst this
        have hne' : a ++ t ++ [] ≠ [] := by simp [hne]
        simpa using countOuter_pos hsep hne'
      | cons x r =>
        have hx : x ∈ separator := hrest x (by simp)
        have h1 := ih.2 x (by simp) hx
        have h2 := countOuter_append_ge separator (a ++ t) (x :: r)
        omega
    refine ⟨by simpa using key g, ?_⟩
    intro x hx hxsep
    cases g with
    | nil =>
      cases t with
      | nil => exact absurd rfl hne
      | cons c t =>
        simp at hx
        exact absurd (hx ▸ hxsep) (ht c (by simp))
    | cons y g =>
      simp at hx
      subst hx
      have h1 := countOuter_cons_sep hxsep (g ++ t ++ rest)
      have h2 := key g
      simp only [List.cons_append, List.length_cons]
      omega

/-! ## Lemmas on the counter as an `int` -/

/-- For a separator string of one character, `parser` returns a tokenization of
its text in slots that hold the tokens and the sentinel. -/
theorem parser_tokenizes_char (str : CStr) (c : Char) :
    ∃ tokens, Tokenizes [c] str tokens ∧ tokens.length + 1 ≤ slotCount str [c] ∧
      parser (some str) [c] = .ok (some tokens) := by
  obtain ⟨tokens, htok, hloop⟩ :=
    parserLoop_spec [c] (slotCount str [c]) (str.length + 1) str (Nat.lt_succ_self _)
  have hlen : tokens.length + 1 ≤ slotCount str [c] := by
    have := (htok.length_le (List.cons_ne_nil c [])).1
    simp only [slotCount]; omega
  refine ⟨tokens, htok, hlen, ?_⟩
  simp only [parser]
  rw [(hloop 0 []).1 (by omega)]
  simp

theorem Tokenizes.token_props {separator s : CStr} {tokens : List CStr}
    (h : Tokenizes separator s tokens) :
    (∀ t ∈ tokens, t ≠ []) ∧ (∀ t ∈ tokens, ∀ c ∈ t, c ∉ separator) := by
  induction h with
  | done g hg => simp
  | token g t rest tokens hg hne ht hrest htail ih =>
    refine ⟨?_, ?_⟩
    · intro u hu
      rcases List.mem_cons.1 hu with rfl | hu
      exacts [hne, ih.1 u hu]
    · intro u hu
      rcases List.mem_cons.1 hu with rfl | hu
      exacts [ht, ih.2 u hu]

theorem Tokenizes.gaps {separator s : CStr} {tokens : List CStr}
    (h : Tokenizes separator s tokens) :
    ∃ gaps : List CStr, gaps.length = tokens.length + 1 ∧ (∀ g ∈ gaps, ∀ c ∈ g, c ∈ separator) ∧
      (∀ (k : Nat) (g : CStr), 0 < k → k < tokens.length → gaps[k]? = some g → g ≠ []) ∧
      weave gaps tokens = s := by
  induction h with
  | done g hg =>
    exact ⟨[g], rfl, by simpa using hg, by simp, rfl⟩
  | token g t rest tokens hg hne ht hrest htail ih =>
    obtain ⟨gaps, hlen, hsep, hmid, hweave⟩ := ih
    refine ⟨g :: gaps, by simp [hlen], ?_, ?_, ?_⟩
    · intro g' hg'
      rcases List.mem_cons.1 hg' with rfl | hg'
      exacts [hg, hsep g' hg']
    · intro k g' hk hlt hget
      cases k with
      | zero => omega
      | succ k =>
        simp only [List.getElem?_cons_succ] at hget
        simp only [List.length_cons] at hlt
        cases k with
        | succ k => exact hmid (k + 1) g' (by omega) (by omega) hget
        | zero =>
          -- the gap after the first token is the head of the rest, which is not empty
          rintro rfl
          cases gaps with
          | nil => simp at hget
          | cons g0 gaps =>
            simp at hget
            subst hget
            cases tokens with
            | nil => simp at hlt
            | cons u tokens =>
              have hu := (htail.token_props).1 u (by simp)
              have hu2 := (htail.token_props).2 u (by simp)
              cases u with
              | nil => exact hu rfl
              | cons c u =>
                simp only [weave, List.nil_append, List.cons_append] at hweave
                have := hrest c (by rw [← hweave]; simp)
                exact hu2 c (by simp) this
    · simp [weave, hweave]

theorem searchLoop_none (w : World) (cmd : CStr) (dirs : List CStr)
    (h : ∀ d ∈ dirs, w.access_F_OK (d ++ ['/'] ++ cmd) = false) :
    searchLoop w cmd dirs = none := by
  induction dirs with
  | nil => rfl
  | cons d dirs ih =>
    simp only [searchLoop, h d (by simp)]
    exact ih (fun e he => h e (List.mem_cons_of_mem _ he))

theorem searchLoop_first (w : World) (cmd : CStr) (pre : List CStr) (d : CStr)
    (post : List CStr) (hpre : ∀ e ∈ pre, w.access_F_OK (e ++ ['/'] ++ cmd) = false)
    (hd : w.access_F_OK (d ++ ['/'] ++ cmd) = true) :
    searchLoop w cmd (pre ++ d :: post) = some (d ++ ['/'] ++ cmd) := by
  induction pre with
  | nil => simp only [List.nil_append, searchLoop, hd, if_true]
  | cons e pre ih =>
    simp only [List.cons_append, searchLoop, hpre e (by simp)]
    exact ih (fun x hx => hpre x (List.mem_cons_of_mem _ hx))

theorem search_cmd_of_path (w : World) (cmd path : CStr) (hpath : w.getenv_PATH = some path) :
    ∃ dirs, parser (some path) [':'] = .ok (some dirs) ∧
      search_cmd w (some cmd) =
        if w.access_F_OK cmd = true then .ok (some cmd) else .ok (searchLoop w cmd dirs) := by
  obtain ⟨dirs, _, _, hp⟩ := parser_tokenizes_char path ':'
  refine ⟨dirs, hp, ?_⟩
  simp only [search_cmd, hpath, hp]

theorem search_cmd_unset (w : World) (cmd : Option CStr) (hpath : w.getenv_PATH = none) :
    search_cmd w cmd = .ok none := by
  simp only [search_cmd, hpath, parser]

theorem searchLoop_exists (w : World) (cmd : CStr) (dirs : List CStr) (path : CStr)
    (h : searchLoop w cmd dirs = some path) : w.access_F_OK path = true := by
  induction dirs with
  | nil => simp [searchLoop] at h
  | cons d dirs ih =>
    simp only [searchLoop] at h
    split at h
    · next hd =>
      have : d ++ ['/'] ++ cmd = path := by simpa using h
      rw [← this]; exact hd
    · exact ih h

/-- A path returned by `search_cmd` names an existing entry. -/
theorem search_cmd_exists (w : World) (cmd path : CStr)
    (h : search_cmd w (some cmd) = .ok (some path)) : w.access_F_OK path = true := by
  cases hpath : w.getenv_PATH with
  | none => simp [search_cmd_unset w (some cmd) hpath] at h
  | some value =>
    obtain ⟨dirs, _, hs⟩ := search_cmd_of_path w cmd value hpath
    rw [hs] at h
    split at h
    · next hc =>
      have : cmd = path := by simpa using h
      rw [← this]; exact hc
    · exact searchLoop_exists w cmd dirs path (by simpa using h)

/-! ## Lemmas on `create_process`, `execute_with_path` and `print_prompt` -/

/-- In the parent, the direct branch of `create_process` returns the status
that `waitpid` stores. -/
theorem create_process_direct_parent (w : World) (shell cmd : CStr) (args : List CStr)
    (count : Int) (status : Int) (hdirect : directlyExecutable w cmd = true)
    (hpid : 0 < w.fork) (hwait : w.waitpid w.fork = some status) :
    create_process w shell cmd args count
      = .ok ⟨[.fork, .waitpid w.fork], .returned status⟩ := by
  have h1 : w.fork ≠ -1 := by omega
  have h2 : w.fork ≠ 0 := by omega
  simp [create_process, hdirect, h1, h2, hwait]

/-- In the parent, `execute_with_path` returns `0`, whatever `waitpid` stores. -/
theorem execute_with_path_parent (w : World) (buff : List CStr) (full_path : CStr)
    (hpid : 0 < w.fork) :
    execute_with_path w buff full_path = ⟨[.fork, .waitpid w.fork], .returned 0⟩ := by
  have h1 : w.fork ≠ -1 := by omega
  have h2 : w.fork ≠ 0 := by omega
  simp [execute_with_path, h1, h2]

/-- In the child, after a failed `execve`, both functions call `waitpid` and
return to their caller. -/
theorem child_falls_through (w : World) (shell cmd : CStr) (args : List CStr) (count : Int)
    (full_path : CStr) (hpid : w.fork = 0) :
    (directlyExecutable w cmd = true → w.execve cmd (cmd :: args) = false →
      create_process w shell cmd args count
        = .ok ⟨[.fork, .execve cmd (cmd :: args), .perror "Error in execve".toList, .waitpid 0],
            .returned ((w.waitpid 0).getD 0)⟩) ∧
    (w.execve full_path (cmd :: args) = false →
      execute_with_path w (cmd :: args) full_path
        = ⟨[.fork, .execve full_path (cmd :: args), .perror "Error in execve".toList,
            .waitpid 0], .returned 0⟩) := by
  refine ⟨?_, ?_⟩
  · intro hdirect hexec
    simp [create_process, hdirect, hpid, hexec]
  · intro hexec
    simp [execute_with_path, hpid, hexec]

/-- When `getline` returns `-1`, `print_prompt` does not return: the read of
line 35 is a read of the released buffer, or a read through `NULL`. -/
theorem print_prompt_end_of_input (c : Console) (host cwd : CStr)
    (hhost : c.gethostname = some host) (hcwd : c.getcwd = some cwd)
    (hline : c.getline = none) :
    print_prompt c =
      .error (if c.bufferAllocatedOnFailure = true then .useAfterFree else .nullDeref) := by
  cases hb : c.bufferAllocatedOnFailure <;>
    simp [print_prompt, hhost, hcwd, hline, hb, Buffer.read]

/-! ## Properties stated by the specification -/

/-- C2. For a command that does not itself name an existing entry: when `PATH` is
unset `search_cmd` returns `NULL`; when it is set, with `dirs` the directories
`parser(PATH, ":")` lists, `search_cmd` returns `NULL` if no `dir/cmd` exists, and
returns `d/cmd` for the earliest directory `d` of the list whose `d/cmd` exists. -/
theorem search_cmd_first_match (w : World) (cmd : CStr) (hcmd : w.access_F_OK cmd = false) :
    (w.getenv_PATH = none → search_cmd w (some cmd) = .ok none) ∧
    (∀ path, w.getenv_PATH = some path →
      ∃ dirs, parser (some path) [':'] = .ok (some dirs) ∧
        ((∀ d ∈ dirs, w.access_F_OK (d ++ ['/'] ++ cmd) = false) →
          search_cmd w (some cmd) = .ok none) ∧
        (∀ (pre : List CStr) (d : CStr) (post : List CStr), dirs = pre ++ d :: post →
          (∀ e ∈ pre, w.access_F_OK (e ++ ['/'] ++ cmd) = false) →
          w.access_F_OK (d ++ ['/'] ++ cmd) = true →
          search_cmd w (some cmd) = .ok (some (d ++ ['/'] ++ cmd)))) := by
  refine ⟨search_cmd_unset w (some cmd), ?_⟩
  intro path hpath
  obtain ⟨dirs, hp, hs⟩ := search_cmd_of_path w cmd path hpath
  simp only [hcmd, Bool.false_eq_true, if_false] at hs
  refine ⟨dirs, hp, ?_, ?_⟩
  · intro hnone
    rw [hs, searchLoop_none w cmd dirs hnone]
  · intro pre d post hdirs hpre hd
    rw [hs, hdirs, searchLoop_first w cmd pre d post hpre hd]

/-- Witness of C2: with `PATH` `/a:/b`, `cmd` resolves to `/a/cmd` when it is
present in both directories and to `/b/cmd` when it is present in `/b` only. -/
theorem search_cmd_first_match_witness :
    (pathWorld ["/a/cmd".toList, "/b/cmd".toList]).access_F_OK "cmd".toList = false ∧
      search_cmd (pathWorld ["/a/cmd".toList, "/b/cmd".toList]) (some "cmd".toList)
        = .ok (some "/a/cmd".toList) ∧
      search_cmd (pathWorld ["/b/cmd".toList]) (some "cmd".toList)
        = .ok (some "/b/cmd".toList) := by
  refine ⟨by decide, ?_, ?_⟩
  · obtain ⟨dirs, hp, _, h⟩ :=
      (search_cmd_first_match (pathWorld ["/a/cmd".toList, "/b/cmd".toList]) "cmd".toList
        (by decide)).2 "/a:/b".toList rfl
    have hd : dirs = ["/a".toList, "/b".toList] := by
      have : parser (some "/a:/b".toList) [':'] = .ok (some ["/a".toList, "/b".toList]) := by
        decide
      rw [this] at hp
      simpa using hp.symm
    exact h [] "/a".toList ["/b".toList] hd (by simp) (by decide)
  · obtain ⟨dirs, hp, _, h⟩ :=
      (search_cmd_first_match (pathWorld ["/b/cmd".toList]) "cmd".toList
        (by decide)).2 "/a:/b".toList rfl
    have hd : dirs = ["/a".toList, "/b".toList] := by
      have : parser (some "/a:/b".toList) [':'] = .ok (some ["/a".toList, "/b".toList]) := by
        decide
      rw [this] at hp
      simpa using hp.symm
    exact h ["/a".toList] "/b".toList [] hd (by decide) (by decide)

/-- C3, counterexample. With `PATH` unset, `search_cmd("/bin/ls")` returns `NULL`
although `/bin/ls` names an existing entry: the test of line 109 fails before
the existence test of line 111 is reached. -/
theorem search_cmd_existing_unset_path :
    unsetPathWorld.access_F_OK "/bin/ls".toList = true ∧
      search_cmd unsetPathWorld (some "/bin/ls".toList) = .ok none := by
  decide

/-- C3, amended. For every command that names an existing entry: in every
environment in which `PATH` is set, whatever its value, `search_cmd` returns the
command unchanged; in an environment in which `PATH` is unset it returns `NULL`. -/
theorem search_cmd_existing (w : World) (cmd : CStr) (hcmd : w.access_F_OK cmd = true) :
    (∀ path, w.getenv_PATH = some path → search_cmd w (some cmd) = .ok (some cmd)) ∧
      (w.getenv_PATH = none → search_cmd w (some cmd) = .ok none) := by
  refine ⟨?_, search_cmd_unset w (some cmd)⟩
  intro path hpath
  obtain ⟨dirs, _, hs⟩ := search_cmd_of_path w cmd path hpath
  simpa only [hcmd, if_true] using hs

/-- Witness of C3 (amended): `/b/cmd` exists and `PATH` is `/a:/b`. -/
theorem search_cmd_existing_witness :
    (pathWorld ["/b/cmd".toList]).access_F_OK "/b/cmd".toList = true ∧
      search_cmd (pathWorld ["/b/cmd".toList]) (some "/b/cmd".toList)
        = .ok (some "/b/cmd".toList) :=
  ⟨by decide, (search_cmd_existing (pathWorld ["/b/cmd".toList]) "/b/cmd".toList
    (by decide)).1 "/a:/b".toList rfl⟩

/-- C4, the code at the failing input. The command `false` is resolved through
`PATH` to `/b/false`; the child `4711` terminates and `waitpid` reports the
status `256`, and `create_process` returns `0`. Run directly as `/bin/false`, the
same termination status `256` is returned. -/
theorem create_process_drops_status_of_resolved_command :
    (pathWorld ["/b/false".toList]).waitpid 4711 = some 256 ∧
      create_process (pathWorld ["/b/false".toList]) "hsh".toList "false".toList [] 1
        = .ok ⟨[.fork, .waitpid 4711], .returned 0⟩ ∧
      directWorld.waitpid 4711 = some 256 ∧
      create_process directWorld "hsh".toList "/bin/false".toList [] 1
        = .ok ⟨[.fork, .waitpid 4711], .returned 256⟩ := by
  decide

/-- C5. When `argv[0]` is not directly executable and `search_cmd(argv[0])` finds
nothing, `create_process` makes exactly one call visible outside the process,
the write of the line `<shell>: <argv[0]>: <count>: not found` to the error
stream with `count` in decimal, calls neither `fork` nor `execve`, and returns
(the value `0`). -/
theorem create_process_not_found (w : World) (shell cmd : CStr) (args : List CStr)
    (count : Int) (hdirect : directlyExecutable w cmd = false)
    (hsearch : search_cmd w (some cmd) = .ok none) :
    create_process w shell cmd args count =
      .ok ⟨[.stderr (shell ++ ": ".toList ++ cmd ++ ": ".toList ++ (Int.repr count).toList
        ++ ": not found\n".toList)], .returned 0⟩ := by
  simp only [create_process, hdirect, hsearch, Bool.false_eq_true, if_false]

/-- Witness of C5: the command `zzzznope` with the counter value `3`. -/
theorem create_process_not_found_witness :
    directlyExecutable (pathWorld []) "zzzznope".toList = false ∧
      search_cmd (pathWorld []) (some "zzzznope".toList) = .ok none ∧
      create_process (pathWorld []) "shellname".toList "zzzznope".toList [] 3
        = .ok ⟨[.stderr "shellname: zzzznope: 3: not found\n".toList], .returned 0⟩ :=
  ⟨by decide, by decide,
    (create_process_not_found (pathWorld []) "shellname".toList "zzzznope".toList [] 3
      (by decide) (by decide)).trans (by decide)⟩

/-- C6. When `argv[0]` is not directly executable and `search_cmd` returns a path
(an existing entry) for which `access(path, X_OK)` fails, `create_process` makes
exactly one call visible outside the process, the write of the line
`<shell>: <path>: Permission denied` to the error stream: there is no
`not found` line and no call of `fork`; the path returned exists. -/
theorem create_process_permission_denied (w : World) (shell cmd : CStr) (args : List CStr)
    (count : Int) (full_path : CStr) (hdirect : directlyExecutable w cmd = false)
    (hsearch : search_cmd w (some cmd) = .ok (some full_path))
    (hperm : w.access_X_OK full_path = false) :
    w.access_F_OK full_path = true ∧
      create_process w shell cmd args count =
        .ok ⟨[.stderr (shell ++ ": ".toList ++ full_path ++ ": Permission denied\n".toList)],
          .returned 0⟩ := by
  refine ⟨search_cmd_exists w cmd full_path hsearch, ?_⟩
  simp only [create_process, hdirect, hsearch, hperm, Bool.false_eq_true, if_false, if_true]

/-- Witness of C6: `/b/cmd` exists without execute permission. -/
theorem create_process_permission_denied_witness :
    directlyExecutable noExecWorld "cmd".toList = false ∧
      search_cmd noExecWorld (some "cmd".toList) = .ok (some "/b/cmd".toList) ∧
      noExecWorld.access_X_OK "/b/cmd".toList = false ∧
      create_process noExecWorld "hsh".toList "cmd".toList [] 1
        = .ok ⟨[.stderr "hsh: /b/cmd: Permission denied\n".toList], .returned 0⟩ :=
  ⟨by decide, by decide, by decide,
    (create_process_permission_denied noExecWorld "hsh".toList "cmd".toList [] 1
      "/b/cmd".toList (by decide) (by decide) (by decide)).2.trans (by decide)⟩

/-- C8, the code at the failing input. In the child (`fork` has returned `0`),
when `execve` fails, the run goes on after `perror`: it calls `waitpid(0, ...)`
and returns to the caller, in `create_process` (the command `/tmp`, a directory,
passes the test of line 157) and in `execute_with_path` alike. -/
theorem child_continues_after_failed_execve :
    childWorld.fork = 0 ∧ childWorld.execve "/tmp".toList ["/tmp".toList] = false ∧
      create_process childWorld "hsh".toList "/tmp".toList [] 1
        = .ok ⟨[.fork, .execve "/tmp".toList ["/tmp".toList],
            .perror "Error in execve".toList, .waitpid 0], .returned 0⟩ ∧
      execute_with_path childWorld ["cmd".toList] "/b/cmd".toList
        = ⟨[.fork, .execve "/b/cmd".toList ["cmd".toList],
            .perror "Error in execve".toList, .waitpid 0], .returned 0⟩ := by
  decide

/-- C9, the code at the failing input. At end of input (`getline` returns `-1`)
`print_prompt` does not return `NULL`: after the buffer is released (lines 30-31)
control reaches the read `buffer[prompt - 1]` of line 35, which is a read of the
released buffer, or a read through `NULL` when `getline` had allocated nothing. -/
theorem print_prompt_end_of_input_reads_buffer :
    (eofConsole true).getline = none ∧
      print_prompt (eofConsole true) = .error .useAfterFree ∧
      print_prompt (eofConsole false) = .error .nullDeref := by
  decide

end SimpleShell
